import Mathlib

/-!
Shallow embedding of the xororo two-share secret-splitting core
(src/src/lib.rs) and proofs of its specified properties.

Bytes are modelled as natural numbers; the Rust `u8`/`u32` bounds appear as
explicit `< 256` / `< 2 ^ 32` hypotheses where they matter.  The random mask
that `split_secret` draws from `rand::rng()` is passed as an explicit
argument, since the code fills exactly `secret.len()` random bytes.
-/

namespace Xororo

/-- Error type for share validation, mirroring `ShareError` in src/src/lib.rs. -/
inductive ShareError where
  | InvalidChecksum
  | ShareTooShort
  | EmptyInput
deriving DecidableEq, Repr

/-- The pair of shares produced by `split_secret` (`TwoShares` in src/src/lib.rs). -/
structure TwoShares where
  share1 : List Nat
  share2 : List Nat
deriving DecidableEq, Repr

/-- The CRC-32 (IEEE 802.3) generator polynomial in reflected bit order,
as used by the `crc32fast` dependency. -/
def crcPoly : Nat := 0xEDB88320

/-- One bit step of the reflected CRC-32 update: shift right one bit,
xoring in the polynomial when the low bit was set. -/
def crcBitStep (c : Nat) : Nat :=
  if c % 2 = 1 then (c / 2) ^^^ crcPoly else c / 2

/-- One byte step of CRC-32: xor the byte into the state, then run eight
bit steps. -/
def crcByteStep (c b : Nat) : Nat := crcBitStep^[8] (c ^^^ b)

/-- CRC-32 of a byte sequence, as computed by the `crc32fast::Hasher` used in
src/src/lib.rs: initial state `0xFFFFFFFF`, reflected polynomial
`0xEDB88320`, final xor with `0xFFFFFFFF` (the standard IEEE CRC-32). -/
def crc32 (data : List Nat) : Nat :=
  (data.foldl crcByteStep 0xFFFFFFFF) ^^^ 0xFFFFFFFF

/-- `u32::to_be_bytes`: the four big-endian bytes of a 32-bit value. -/
def u32_to_be_bytes (c : Nat) : List Nat :=
  [c / 2 ^ 24 % 256, c / 2 ^ 16 % 256, c / 2 ^ 8 % 256, c % 256]

/-- `u32::from_be_bytes`: recombine four big-endian bytes into a value. -/
def u32_from_be_bytes (b0 b1 b2 b3 : Nat) : Nat :=
  b0 * 2 ^ 24 + b1 * 2 ^ 16 + b2 * 2 ^ 8 + b3

/-- `split_secret` from src/src/lib.rs.  The random bytes that
`rand_gen.fill_bytes` writes into `share2_data` are supplied explicitly as
`mask`; the code generates exactly `secret.len()` of them, which theorems
state as the hypothesis `mask.length = secret.length`. -/
def split_secret (secret : List Nat) (mask : List Nat) :
    Except ShareError TwoShares :=
  if secret.isEmpty then Except.error ShareError.EmptyInput else
    let share2_data := mask
    let share1_data := List.zipWith (fun s r => s ^^^ r) secret share2_data
    let crc1 := crc32 share1_data
    let crc2 := crc32 share2_data
    let share1 := share1_data ++ u32_to_be_bytes crc1
    let share2 := share2_data ++ u32_to_be_bytes crc2
    Except.ok ⟨share1, share2⟩

/-- `verify_and_extract` from src/src/lib.rs: check the 4-byte big-endian
CRC-32 trailer and return the payload. -/
def verify_and_extract (share : List Nat) : Except ShareError (List Nat) :=
  if share.isEmpty then Except.error ShareError.EmptyInput
  else if share.length < 4 then Except.error ShareError.ShareTooShort
  else
    let data_len := share.length - 4
    let data := share.take data_len
    let stored_crc := u32_from_be_bytes (share.getD data_len 0)
      (share.getD (data_len + 1) 0) (share.getD (data_len + 2) 0)
      (share.getD (data_len + 3) 0)
    let computed_crc := crc32 data
    if computed_crc ≠ stored_crc then Except.error ShareError.InvalidChecksum
    else Except.ok data

/-- `recover_secret` from src/src/lib.rs: verify both shares and xor the
payloads together. -/
def recover_secret (share1 share2 : List Nat) : Except ShareError (List Nat) := do
  let data1 ← verify_and_extract share1
  let data2 ← verify_and_extract share2
  pure (List.zipWith (fun s1 s2 => s1 ^^^ s2) data1 data2)

/-- The bytes obtained by base64-decoding `ZiTjk3OD6puSVM/JV3CYopI=`,
the first fixed-vector share of the regression test in src/src/lib.rs. -/
def share1_vec : List Nat :=
  [102, 36, 227, 147, 115, 131, 234, 155, 146, 84, 207, 201, 87, 112, 152, 162, 146]

/-- The bytes obtained by base64-decoding `LkGP/xyvysz9JqOtdpOmJ8A=`,
the second fixed-vector share of the regression test in src/src/lib.rs. -/
def share2_vec : List Nat :=
  [46, 65, 143, 255, 28, 175, 202, 204, 253, 38, 163, 173, 118, 147, 166, 39, 192]

/-- The UTF-8 bytes of the text `Hello, World!`. -/
def helloWorldBytes : List Nat :=
  [72, 101, 108, 108, 111, 44, 32, 87, 111, 114, 108, 100, 33]

deriving instance DecidableEq for Except

/-! ### Helper lemmas -/

/-- Recombining the four big-endian bytes of a 32-bit value gives it back. -/
theorem u32_from_to_be_bytes (c : Nat) (h : c < 2 ^ 32) :
    u32_from_be_bytes (c / 2 ^ 24 % 256) (c / 2 ^ 16 % 256) (c / 2 ^ 8 % 256)
      (c % 256) = c := by
  unfold u32_from_be_bytes
  omega

/-- Rearrange a double xor: swap the two right operands. -/
theorem xor_right_swap (a b c : Nat) : (a ^^^ b) ^^^ c = (a ^^^ c) ^^^ b := by
  rw [Nat.xor_assoc, Nat.xor_comm b c, ← Nat.xor_assoc]

/-- Xoring the same value into both operands cancels it. -/
theorem xor_paired_cancel (a b p : Nat) : (a ^^^ p) ^^^ (b ^^^ p) = a ^^^ b := by
  rw [Nat.xor_assoc, Nat.xor_comm p (b ^^^ p), Nat.xor_assoc, Nat.xor_self,
    Nat.xor_zero]

/-- The CRC bit step keeps 32-bit states 32-bit. -/
theorem crcBitStep_lt (c : Nat) (h : c < 2 ^ 32) : crcBitStep c < 2 ^ 32 := by
  unfold crcBitStep crcPoly
  split
  · exact Nat.xor_lt_two_pow (by omega) (by norm_num)
  · omega

/-- Iterated CRC bit steps keep 32-bit states 32-bit. -/
theorem crcBitStep_iterate_lt (n c : Nat) (h : c < 2 ^ 32) :
    crcBitStep^[n] c < 2 ^ 32 := by
  induction n generalizing c with
  | zero => simpa using h
  | succ k ih =>
      rw [Function.iterate_succ_apply]
      exact ih _ (crcBitStep_lt c h)

/-- Folding CRC byte steps over 32-bit bytes keeps the state 32-bit. -/
theorem foldl_crcByteStep_lt (l : List Nat) (c : Nat) (hc : c < 2 ^ 32)
    (hl : ∀ b ∈ l, b < 2 ^ 32) : l.foldl crcByteStep c < 2 ^ 32 := by
  induction l generalizing c with
  | nil => simpa using hc
  | cons b t ih =>
      simp only [List.foldl_cons, crcByteStep]
      exact ih _ (crcBitStep_iterate_lt 8 _
          (Nat.xor_lt_two_pow hc (hl b (by simp))))
        (fun x hx => hl x (by simp [hx]))

/-- The CRC-32 of a sequence of 32-bit values is a 32-bit value. -/
theorem crc32_lt (l : List Nat) (hl : ∀ b ∈ l, b < 2 ^ 32) :
    crc32 l < 2 ^ 32 := by
  unfold crc32
  exact Nat.xor_lt_two_pow (foldl_crcByteStep_lt l _ (by norm_num) hl)
    (by norm_num)

/-- `getD` past the first summand of an append reads the second summand. -/
theorem getD_append_right_len (l1 l2 : List Nat) (n : Nat) (d : Nat)
    (h : l1.length ≤ n) : (l1 ++ l2).getD n d = l2.getD (n - l1.length) d := by
  simp [List.getD_eq_getElem?_getD, List.getElem?_append_right h]

/-- `verify_and_extract` on a payload followed by four trailer bytes reduces
to the checksum comparison of the source code. -/
theorem verify_append_four (p : List Nat) (b0 b1 b2 b3 : Nat) :
    verify_and_extract (p ++ [b0, b1, b2, b3]) =
      if crc32 p ≠ u32_from_be_bytes b0 b1 b2 b3
      then Except.error ShareError.InvalidChecksum else Except.ok p := by
  have hne : (p ++ [b0, b1, b2, b3]).isEmpty = false := by
    simp [List.isEmpty_iff]
  have hlen : (p ++ [b0, b1, b2, b3]).length = p.length + 4 := by simp
  have hlt : ¬ (p ++ [b0, b1, b2, b3]).length < 4 := by omega
  have hdl : (p ++ [b0, b1, b2, b3]).length - 4 = p.length := by omega
  have htake : (p ++ [b0, b1, b2, b3]).take p.length = p :=
    List.take_left' rfl
  have g0 : (p ++ [b0, b1, b2, b3]).getD p.length 0 = b0 := by
    rw [getD_append_right_len _ _ _ _ (Nat.le_refl _)]
    simp
  have g1 : (p ++ [b0, b1, b2, b3]).getD (p.length + 1) 0 = b1 := by
    rw [getD_append_right_len _ _ _ _ (by omega)]
    simp
  have g2 : (p ++ [b0, b1, b2, b3]).getD (p.length + 2) 0 = b2 := by
    rw [getD_append_right_len _ _ _ _ (by omega)]
    simp
  have g3 : (p ++ [b0, b1, b2, b3]).getD (p.length + 3) 0 = b3 := by
    rw [getD_append_right_len _ _ _ _ (by omega)]
    simp
  rw [verify_and_extract, hne]
  simp only [Bool.false_eq_true, if_false, if_neg hlt, hdl, htake, g0, g1, g2,
    g3]

/-- A share of length 1, 2 or 3 is rejected as too short. -/
theorem verify_short (s : List Nat) (h1 : 1 ≤ s.length) (h3 : s.length ≤ 3) :
    verify_and_extract s = Except.error ShareError.ShareTooShort := by
  have hne : s.isEmpty = false := by
    cases s with
    | nil => simp at h1
    | cons a t => rfl
  rw [verify_and_extract, hne]
  simp only [Bool.false_eq_true, if_false, if_pos (by omega : s.length < 4)]

/-- A correctly encoded share passes verification and yields its payload. -/
theorem verify_encode (p : List Nat) (h : crc32 p < 2 ^ 32) :
    verify_and_extract (p ++ u32_to_be_bytes (crc32 p)) = Except.ok p := by
  rw [u32_to_be_bytes, verify_append_four, u32_from_to_be_bytes _ h]
  simp

/-- If the first share fails verification, recovery reports that error. -/
theorem recover_error_left (a b : List Nat) (e : ShareError)
    (h : verify_and_extract a = Except.error e) :
    recover_secret a b = Except.error e := by
  simp only [recover_secret]
  rw [h]
  rfl

/-- If the first share verifies and the second fails, recovery reports the
second share's error. -/
theorem recover_error_right (a b p : List Nat) (e : ShareError)
    (h1 : verify_and_extract a = Except.ok p)
    (h2 : verify_and_extract b = Except.error e) :
    recover_secret a b = Except.error e := by
  simp only [recover_secret]
  rw [h1]
  show verify_and_extract b >>= _ = Except.error e
  rw [h2]
  rfl

/-- If both shares verify, recovery returns the xor of the payloads. -/
theorem recover_eq_of_verify (a b p1 p2 : List Nat)
    (h1 : verify_and_extract a = Except.ok p1)
    (h2 : verify_and_extract b = Except.ok p2) :
    recover_secret a b =
      Except.ok (List.zipWith (fun s1 s2 => s1 ^^^ s2) p1 p2) := by
  simp only [recover_secret]
  rw [h1]
  show verify_and_extract b >>= _ = _
  rw [h2]
  rfl

/-- Xoring a list into another and then xoring it back is the identity. -/
theorem zipWith_xor_cancel (s m : List Nat) (h : m.length = s.length) :
    List.zipWith (fun s1 s2 => s1 ^^^ s2)
      (List.zipWith (fun s1 s2 => s1 ^^^ s2) s m) m = s := by
  induction s generalizing m with
  | nil => simp
  | cons a t ih =>
      cases m with
      | nil => simp at h
      | cons b u =>
          simp only [List.zipWith_cons_cons, List.length_cons] at h ⊢
          exact congrArg₂ List.cons (Nat.xor_cancel_right b a)
            (ih u (by omega))

/-- Bytewise xor of two byte lists stays below 256. -/
theorem zipWith_xor_lt (s m : List Nat) (hs : ∀ b ∈ s, b < 256)
    (hm : ∀ b ∈ m, b < 256) :
    ∀ b ∈ List.zipWith (fun s1 s2 => s1 ^^^ s2) s m, b < 256 := by
  induction s generalizing m with
  | nil => simp
  | cons a t ih =>
      cases m with
      | nil => simp
      | cons b u =>
          intro x hx
          simp only [List.zipWith_cons_cons, List.mem_cons] at hx
          rcases hx with rfl | hx
          · have ha : a < 2 ^ 8 := by
              have := hs a (by simp)
              omega
            have hb : b < 2 ^ 8 := by
              have := hm b (by simp)
              omega
            have := Nat.xor_lt_two_pow ha hb
            omega
          · exact ih u (fun y hy => hs y (by simp [hy]))
              (fun y hy => hm y (by simp [hy])) x hx

/-- The CRC bit step is linear over bitwise xor. -/
theorem crcBitStep_xor (c d : Nat) :
    crcBitStep (c ^^^ d) = crcBitStep c ^^^ crcBitStep d := by
  have hm : (c ^^^ d) % 2 = (c + d) % 2 := Nat.xor_mod_two_eq
  unfold crcBitStep
  rcases Nat.mod_two_eq_zero_or_one c with hc | hc <;>
    rcases Nat.mod_two_eq_zero_or_one d with hd | hd
  · rw [if_neg (by omega), if_neg (by omega), if_neg (by omega),
      Nat.xor_div_two]
  · rw [if_pos (by omega), if_neg (by omega), if_pos hd, Nat.xor_div_two,
      Nat.xor_assoc]
  · rw [if_pos (by omega), if_pos hc, if_neg (by omega), Nat.xor_div_two,
      xor_right_swap]
  · rw [if_neg (by omega), if_pos hc, if_pos hd, Nat.xor_div_two,
      xor_paired_cancel]

/-- Iterated CRC bit steps are linear over bitwise xor. -/
theorem crcBitStep_iterate_xor (n c d : Nat) :
    crcBitStep^[n] (c ^^^ d) = crcBitStep^[n] c ^^^ crcBitStep^[n] d := by
  induction n generalizing c d with
  | zero => simp
  | succ k ih =>
      rw [Function.iterate_succ_apply, Function.iterate_succ_apply,
        Function.iterate_succ_apply, crcBitStep_xor, ih]

/-- The CRC bit step sends no nonzero 32-bit state to zero. -/
theorem crcBitStep_ne_zero (d : Nat) (hlt : d < 2 ^ 32) (hne : d ≠ 0) :
    crcBitStep d ≠ 0 := by
  have h32 : (2 : Nat) ^ 32 = 4294967296 := by norm_num
  unfold crcBitStep crcPoly
  split
  · intro hz
    have := Nat.xor_eq_zero.mp hz
    omega
  · intro hz
    omega

/-- Iterated CRC bit steps send no nonzero 32-bit state to zero. -/
theorem crcBitStep_iterate_ne_zero (n d : Nat) (hlt : d < 2 ^ 32)
    (hne : d ≠ 0) : crcBitStep^[n] d ≠ 0 := by
  induction n generalizing d with
  | zero => simpa using hne
  | succ k ih =>
      rw [Function.iterate_succ_apply]
      exact ih _ (crcBitStep_lt d hlt) (crcBitStep_ne_zero d hlt hne)

/-- The CRC byte step is linear in a xor added to the byte. -/
theorem crcByteStep_xor_byte (c b e : Nat) :
    crcByteStep c (b ^^^ e) = crcByteStep c b ^^^ crcBitStep^[8] e := by
  unfold crcByteStep
  rw [← Nat.xor_assoc, crcBitStep_iterate_xor]

/-- The CRC byte step is linear in a xor added to the state. -/
theorem crcByteStep_xor_state (c d b : Nat) :
    crcByteStep (c ^^^ d) b = crcByteStep c b ^^^ crcBitStep^[8] d := by
  unfold crcByteStep
  rw [xor_right_swap c d b, crcBitStep_iterate_xor]

/-- A xor added to the CRC state propagates through a fold over the
remaining bytes as eight bit steps per byte. -/
theorem foldl_crcByteStep_xor (l : List Nat) (c d : Nat) :
    l.foldl crcByteStep (c ^^^ d) =
      l.foldl crcByteStep c ^^^ crcBitStep^[8 * l.length] d := by
  induction l generalizing c d with
  | nil => simp
  | cons b t ih =>
      simp only [List.foldl_cons, List.length_cons]
      rw [crcByteStep_xor_state, ih, ← Function.iterate_add_apply]
      have : 8 * t.length + 8 = 8 * (t.length + 1) := by ring
      rw [this]

/-- Xoring `e` into the byte at position `i` changes the CRC-32 by the image
of `e` under the iterated bit step. -/
theorem crc32_set_xor (p : List Nat) (i e : Nat) (h : i < p.length) :
    crc32 (p.set i (p.getD i 0 ^^^ e)) =
      crc32 p ^^^ crcBitStep^[8 * (p.length - i)] e := by
  have hdecomp : p.take i ++ p[i] :: p.drop (i + 1) = p := by
    rw [List.getElem_cons_drop, List.take_append_drop]
  have hgetD : p.getD i 0 = p[i] := List.getD_eq_getElem p 0 h
  have hdroplen : (p.drop (i + 1)).length = p.length - (i + 1) :=
    List.length_drop (i + 1) p
  rw [List.set_eq_take_cons_drop _ h, hgetD]
  unfold crc32
  conv_rhs => rw [← hdecomp]
  rw [List.foldl_append, List.foldl_append, List.foldl_cons, List.foldl_cons,
    crcByteStep_xor_byte, foldl_crcByteStep_xor, ← Function.iterate_add_apply]
  have harith : 8 * (p.drop (i + 1)).length + 8 = 8 * (p.length - i) := by
    rw [hdroplen]
    omega
  rw [harith, xor_right_swap, hdecomp]

/-- Xoring a nonzero 32-bit value into any payload byte changes the CRC-32. -/
theorem crc32_set_ne (p : List Nat) (i e : Nat) (h : i < p.length)
    (he : e < 2 ^ 32) (hne : e ≠ 0) :
    crc32 (p.set i (p.getD i 0 ^^^ e)) ≠ crc32 p := by
  rw [crc32_set_xor p i e h]
  intro hcontra
  have hd := crcBitStep_iterate_ne_zero (8 * (p.length - i)) e he hne
  have h0 : crcBitStep^[8 * (p.length - i)] e =
      crc32 p ^^^ (crc32 p ^^^ crcBitStep^[8 * (p.length - i)] e) :=
    (Nat.xor_cancel_left _ _).symm
  rw [hcontra, Nat.xor_self] at h0
  exact hd h0

/-- A non-empty list is not `isEmpty`. -/
theorem isEmpty_false_of_ne_nil (l : List Nat) (h : l ≠ []) :
    l.isEmpty = false := by
  cases l with
  | nil => exact absurd rfl h
  | cons a t => rfl

/-! ### Claim theorems -/

/-- C1: Round-trip — for every non-empty byte sequence and every choice of
random mask of the same length, recovering from the two shares produced by
splitting returns exactly the secret. -/
theorem round_trip (secret mask : List Nat) (hne : secret ≠ [])
    (hlen : mask.length = secret.length)
    (hs : ∀ b ∈ secret, b < 256) (hm : ∀ b ∈ mask, b < 256) :
    ∃ sh : TwoShares, split_secret secret mask = Except.ok sh ∧
      recover_secret sh.share1 sh.share2 = Except.ok secret := by
  have hse : secret.isEmpty = false := isEmpty_false_of_ne_nil secret hne
  have hc1 : crc32 (List.zipWith (fun s r => s ^^^ r) secret mask) < 2 ^ 32 :=
    crc32_lt _ (fun b hb => by
      have := zipWith_xor_lt secret mask hs hm b hb
      omega)
  have hc2 : crc32 mask < 2 ^ 32 :=
    crc32_lt mask (fun b hb => by
      have := hm b hb
      omega)
  refine ⟨⟨List.zipWith (fun s r => s ^^^ r) secret mask ++
      u32_to_be_bytes (crc32 (List.zipWith (fun s r => s ^^^ r) secret mask)),
      mask ++ u32_to_be_bytes (crc32 mask)⟩, ?_, ?_⟩
  · rw [split_secret, hse]
    rfl
  · rw [recover_eq_of_verify _ _ _ mask (verify_encode _ hc1)
      (verify_encode mask hc2), zipWith_xor_cancel secret mask hlen]

/-- C1 witness: the round-trip theorem applied to the secret `[72]` with
mask `[5]`. -/
theorem round_trip_witness :
    ∃ sh : TwoShares, split_secret [72] [5] = Except.ok sh ∧
      recover_secret sh.share1 sh.share2 = Except.ok [72] :=
  round_trip [72] [5] (by decide) (by decide) (by decide) (by decide)

/-- C2: Split postcondition — for every non-empty secret of length L and
every mask of length L, the two shares each have total length L + 4, each is
its payload followed by the big-endian CRC-32 of that payload, both payloads
have length L, and the bytewise xor of the payloads is the secret. -/
theorem split_layout (secret mask : List Nat) (hne : secret ≠ [])
    (hlen : mask.length = secret.length) :
    ∃ sh : TwoShares, split_secret secret mask = Except.ok sh ∧
      sh.share1.length = secret.length + 4 ∧
      sh.share2.length = secret.length + 4 ∧
      (sh.share1.take secret.length).length = secret.length ∧
      (sh.share2.take secret.length).length = secret.length ∧
      sh.share1.drop secret.length =
        u32_to_be_bytes (crc32 (sh.share1.take secret.length)) ∧
      sh.share2.drop secret.length =
        u32_to_be_bytes (crc32 (sh.share2.take secret.length)) ∧
      List.zipWith (fun s r => s ^^^ r) (sh.share1.take secret.length)
        (sh.share2.take secret.length) = secret := by
  have hse : secret.isEmpty = false := isEmpty_false_of_ne_nil secret hne
  have hp1len : (List.zipWith (fun s r => s ^^^ r) secret mask).length
      = secret.length := by
    rw [List.length_zipWith, hlen, Nat.min_self]
  refine ⟨⟨List.zipWith (fun s r => s ^^^ r) secret mask ++
      u32_to_be_bytes (crc32 (List.zipWith (fun s r => s ^^^ r) secret mask)),
      mask ++ u32_to_be_bytes (crc32 mask)⟩, ?_, ?_, ?_, ?_, ?_, ?_, ?_, ?_⟩
  · rw [split_secret, hse]
    rfl
  · simp [u32_to_be_bytes, hp1len]
  · simp [u32_to_be_bytes, hlen]
  · rw [List.take_left' hp1len, hp1len]
  · rw [List.take_left' hlen, hlen]
  · rw [List.take_left' hp1len, List.drop_left' hp1len]
  · rw [List.take_left' hlen, List.drop_left' hlen]
  · rw [List.take_left' hp1len, List.take_left' hlen,
      zipWith_xor_cancel secret mask hlen]

/-- C2 witness: the layout theorem applied to the secret `[1, 2]` with
mask `[3, 4]`. -/
theorem split_layout_witness :
    ∃ sh : TwoShares, split_secret [1, 2] [3, 4] = Except.ok sh ∧
      sh.share1.length = [1, 2].length + 4 ∧
      sh.share2.length = [1, 2].length + 4 ∧
      (sh.share1.take [1, 2].length).length = [1, 2].length ∧
      (sh.share2.take [1, 2].length).length = [1, 2].length ∧
      sh.share1.drop [1, 2].length =
        u32_to_be_bytes (crc32 (sh.share1.take [1, 2].length)) ∧
      sh.share2.drop [1, 2].length =
        u32_to_be_bytes (crc32 (sh.share2.take [1, 2].length)) ∧
      List.zipWith (fun s r => s ^^^ r) (sh.share1.take [1, 2].length)
        (sh.share2.take [1, 2].length) = [1, 2] :=
  split_layout [1, 2] [3, 4] (by decide) (by decide)

/-- C3: Verify-and-extract correctness — on any share of length at least 4,
`verify_and_extract` fails with `InvalidChecksum` exactly when the CRC-32 of
the payload differs from the big-endian 32-bit trailer, returns the payload
otherwise, and accepts a 4-byte share whose trailer is the CRC-32 of the
empty sequence. -/
theorem verify_and_extract_spec (share : List Nat) (h4 : 4 ≤ share.length) :
    (verify_and_extract share = Except.error ShareError.InvalidChecksum ↔
      crc32 (share.take (share.length - 4)) ≠
        u32_from_be_bytes (share.getD (share.length - 4) 0)
          (share.getD (share.length - 4 + 1) 0)
          (share.getD (share.length - 4 + 2) 0)
          (share.getD (share.length - 4 + 3) 0)) ∧
    (crc32 (share.take (share.length - 4)) =
        u32_from_be_bytes (share.getD (share.length - 4) 0)
          (share.getD (share.length - 4 + 1) 0)
          (share.getD (share.length - 4 + 2) 0)
          (share.getD (share.length - 4 + 3) 0) →
      verify_and_extract share = Except.ok (share.take (share.length - 4))) ∧
    verify_and_extract (u32_to_be_bytes (crc32 [])) = Except.ok [] := by
  have hne : share.isEmpty = false := by
    cases share with
    | nil => simp at h4
    | cons a t => rfl
  have hlt : ¬ share.length < 4 := by omega
  refine ⟨?_, ?_, by decide⟩
  · rw [verify_and_extract, hne]
    simp only [Bool.false_eq_true, if_false, if_neg hlt]
    split
    · next hcond => exact iff_of_true rfl hcond
    · next hcond => exact iff_of_false (fun hx => Except.noConfusion hx) hcond
  · intro heq
    rw [verify_and_extract, hne]
    simp only [Bool.false_eq_true, if_false, if_neg hlt]
    rw [if_neg (by simpa using heq)]

/-- C3 witness: a 5-byte share with a zero trailer fails with
`InvalidChecksum`, via the characterisation theorem. -/
theorem verify_and_extract_spec_witness :
    verify_and_extract [7, 0, 0, 0, 0] =
      Except.error ShareError.InvalidChecksum :=
  ((verify_and_extract_spec [7, 0, 0, 0, 0] (by decide)).1).mpr (by decide)

/-- C4 counterexample: with a 1-byte first share and an empty second share,
`recover_secret` reports `ShareTooShort`, not `EmptyInput`, although one of
the share arguments is empty. -/
theorem empty_not_first_error :
    recover_secret [1] [] = Except.error ShareError.ShareTooShort ∧
      recover_secret [1] [] ≠ Except.error ShareError.EmptyInput := by
  exact ⟨rfl, by decide⟩

/-- C4 (amended): `split_secret` on an empty secret fails with `EmptyInput`
before touching the mask; `recover_secret` fails with `EmptyInput` when its
first share is empty, and when its second share is empty provided the first
share passes verification — in each case the emptiness check precedes any
other computation on that input. -/
theorem empty_rejection (mask share1 share2 d : List Nat) :
    split_secret [] mask = Except.error ShareError.EmptyInput ∧
    (share1 = [] →
      recover_secret share1 share2 = Except.error ShareError.EmptyInput) ∧
    (verify_and_extract share1 = Except.ok d →
      recover_secret share1 [] = Except.error ShareError.EmptyInput) := by
  refine ⟨rfl, ?_, ?_⟩
  · intro h
    subst h
    exact recover_error_left [] share2 ShareError.EmptyInput rfl
  · intro h
    exact recover_error_right share1 [] d ShareError.EmptyInput h rfl

/-- C4 witness: the amended theorem applied with mask `[3]`, the valid
4-byte share `[0, 0, 0, 0]` and second share `[9]`. -/
theorem empty_rejection_witness :
    split_secret [] [3] = Except.error ShareError.EmptyInput ∧
    ([0, 0, 0, 0] = ([] : List Nat) →
      recover_secret [0, 0, 0, 0] [9] = Except.error ShareError.EmptyInput) ∧
    (verify_and_extract [0, 0, 0, 0] = Except.ok [] →
      recover_secret [0, 0, 0, 0] [] = Except.error ShareError.EmptyInput) :=
  empty_rejection [3] [0, 0, 0, 0] [9] []

/-- C5: Short-share rejection — a share of length 1, 2 or 3 in the first
position makes `recover_secret` fail with `ShareTooShort`; in the second
position it does too, once the first share passes verification (the first
share is checked first). -/
theorem short_share_rejection (share1 share2 d : List Nat) :
    (1 ≤ share1.length → share1.length ≤ 3 →
      recover_secret share1 share2 = Except.error ShareError.ShareTooShort) ∧
    (1 ≤ share2.length → share2.length ≤ 3 →
      verify_and_extract share1 = Except.ok d →
      recover_secret share1 share2 = Except.error ShareError.ShareTooShort) := by
  constructor
  · intro h1 h3
    exact recover_error_left share1 share2 ShareError.ShareTooShort
      (verify_short share1 h1 h3)
  · intro h1 h3 hok
    exact recover_error_right share1 share2 d ShareError.ShareTooShort hok
      (verify_short share2 h1 h3)

/-- C5 witness: a 1-byte first share, and a 3-byte second share after a
valid first share, are both rejected as too short. -/
theorem short_share_rejection_witness :
    recover_secret [5] [9] = Except.error ShareError.ShareTooShort ∧
    recover_secret [0, 0, 0, 0] [7, 7, 7] =
      Except.error ShareError.ShareTooShort :=
  ⟨(short_share_rejection [5] [9] []).1 (by decide) (by decide),
   (short_share_rejection [0, 0, 0, 0] [7, 7, 7] []).2 (by decide) (by decide)
     rfl⟩

/-- C6: Error ordering — `recover_secret` validates share1 before share2:
any validation error on share1 is returned as is, whatever share2 contains,
and share2's error surfaces only after share1 has verified successfully. -/
theorem error_ordering (share1 share2 d1 : List Nat) (e : ShareError) :
    (verify_and_extract share1 = Except.error e →
      recover_secret share1 share2 = Except.error e) ∧
    (verify_and_extract share1 = Except.ok d1 →
      verify_and_extract share2 = Except.error e →
      recover_secret share1 share2 = Except.error e) := by
  constructor
  · intro h
    exact recover_error_left share1 share2 e h
  · intro h1 h2
    exact recover_error_right share1 share2 d1 e h1 h2

/-- C6 witness: the ordering theorem applied to a too-short first share
with an invalid second share, and to a valid first share with a too-short
second share. -/
theorem error_ordering_witness :
    recover_secret [5] [1, 2, 3] = Except.error ShareError.ShareTooShort ∧
    recover_secret [0, 0, 0, 0] [1, 2, 3] =
      Except.error ShareError.ShareTooShort :=
  ⟨(error_ordering [5] [1, 2, 3] [] ShareError.ShareTooShort).1 rfl,
   (error_ordering [0, 0, 0, 0] [1, 2, 3] [] ShareError.ShareTooShort).2 rfl
     rfl⟩

set_option maxRecDepth 100000 in
/-- C7: Fixed-vector regression — the two base64-decoded 17-byte shares
recover to exactly the 13 bytes of `Hello, World!`. -/
theorem fixed_vector_regression :
    recover_secret share1_vec share2_vec = Except.ok helloWorldBytes ∧
    share1_vec.length = 17 ∧ share2_vec.length = 17 ∧
    helloWorldBytes.length = 13 :=
  ⟨rfl, rfl, rfl, rfl⟩

/-- C8: Checksum sensitivity — flipping any single bit of any payload byte
of a share whose trailer is the CRC-32 of its payload makes verification
fail with `InvalidChecksum` (CRC-32 detects all single-bit errors), so
recovery with such a corrupted share reports the corruption instead of
returning a wrong secret. -/
theorem checksum_single_bit (p : List Nat) (i j : Nat)
    (hb : ∀ b ∈ p, b < 256) (hi : i < p.length) (hj : j < 8) :
    verify_and_extract
        (p.set i (p.getD i 0 ^^^ 2 ^ j) ++ u32_to_be_bytes (crc32 p)) =
      Except.error ShareError.InvalidChecksum ∧
    ∀ share2, recover_secret
        (p.set i (p.getD i 0 ^^^ 2 ^ j) ++ u32_to_be_bytes (crc32 p)) share2 =
      Except.error ShareError.InvalidChecksum := by
  have hcrc : crc32 p < 2 ^ 32 :=
    crc32_lt p (fun b hbm => lt_trans (hb b hbm) (by norm_num))
  have hej : (2 : Nat) ^ j < 2 ^ 32 :=
    Nat.pow_lt_pow_right (by norm_num) (by omega)
  have hne0 : (2 : Nat) ^ j ≠ 0 := (Nat.two_pow_pos j).ne'
  have hvf : verify_and_extract
      (p.set i (p.getD i 0 ^^^ 2 ^ j) ++ u32_to_be_bytes (crc32 p)) =
      Except.error ShareError.InvalidChecksum := by
    rw [u32_to_be_bytes, verify_append_four, u32_from_to_be_bytes _ hcrc,
      if_pos (crc32_set_ne p i (2 ^ j) hi hej hne0)]
  exact ⟨hvf, fun share2 => recover_error_left _ share2 _ hvf⟩

/-- C8 witness: flipping bit 0 of the single payload byte of the encoded
share for payload `[0]` is detected, both directly and through recovery. -/
theorem checksum_single_bit_witness :
    verify_and_extract
        (([0] : List Nat).set 0 (([0] : List Nat).getD 0 0 ^^^ 2 ^ 0) ++
          u32_to_be_bytes (crc32 [0])) =
      Except.error ShareError.InvalidChecksum ∧
    recover_secret
        (([0] : List Nat).set 0 (([0] : List Nat).getD 0 0 ^^^ 2 ^ 0) ++
          u32_to_be_bytes (crc32 [0])) [9] =
      Except.error ShareError.InvalidChecksum :=
  ⟨(checksum_single_bit [0] 0 0 (by decide) (by decide) (by decide)).1,
   (checksum_single_bit [0] 0 0 (by decide) (by decide) (by decide)).2 [9]⟩

/-- C9: Mismatched-length truncation — whenever both shares pass checksum
verification, recovery succeeds with the bytewise xor of the payloads,
whose length is the minimum of the two payload lengths; extra bytes of the
longer payload are silently dropped and no length-mismatch error exists. -/
theorem recover_truncates (a b p1 p2 : List Nat)
    (h1 : verify_and_extract a = Except.ok p1)
    (h2 : verify_and_extract b = Except.ok p2) :
    recover_secret a b =
      Except.ok (List.zipWith (fun s1 s2 => s1 ^^^ s2) p1 p2) ∧
    (List.zipWith (fun s1 s2 => s1 ^^^ s2) p1 p2).length =
      min p1.length p2.length ∧
    ∀ i, i < min p1.length p2.length →
      (List.zipWith (fun s1 s2 => s1 ^^^ s2) p1 p2).getD i 0 =
        p1.getD i 0 ^^^ p2.getD i 0 := by
  refine ⟨recover_eq_of_verify a b p1 p2 h1 h2,
    List.length_zipWith _ _ _, ?_⟩
  intro i hi
  have hi1 : i < p1.length := lt_of_lt_of_le hi (min_le_left _ _)
  have hi2 : i < p2.length := lt_of_lt_of_le hi (min_le_right _ _)
  have hiz : i < (List.zipWith (fun s1 s2 => s1 ^^^ s2) p1 p2).length := by
    rw [List.length_zipWith]
    exact hi
  rw [List.getD_eq_getElem _ 0 hiz, List.getD_eq_getElem _ 0 hi1,
    List.getD_eq_getElem _ 0 hi2, List.getElem_zipWith]

set_option maxRecDepth 100000 in
/-- C9 witness: two valid shares with payloads `[0]` and `[1, 2]` of
different lengths recover without error to the one-byte xor. -/
theorem recover_truncates_witness :
    recover_secret [0, 210, 2, 239, 141] [1, 2, 182, 204, 66, 146] =
      Except.ok (List.zipWith (fun s1 s2 => s1 ^^^ s2) [0] [1, 2]) ∧
    (List.zipWith (fun s1 s2 => s1 ^^^ s2) ([0] : List Nat) [1, 2]).length =
      min ([0] : List Nat).length ([1, 2] : List Nat).length ∧
    ∀ i, i < min ([0] : List Nat).length ([1, 2] : List Nat).length →
      (List.zipWith (fun s1 s2 => s1 ^^^ s2) ([0] : List Nat) [1, 2]).getD i 0 =
        ([0] : List Nat).getD i 0 ^^^ ([1, 2] : List Nat).getD i 0 :=
  recover_truncates [0, 210, 2, 239, 141] [1, 2, 182, 204, 66, 146] [0] [1, 2]
    rfl rfl

/-- C10: Successful recovery is order-independent — if recovering from
`(a, b)` returns a secret, recovering from `(b, a)` returns the same one. -/
theorem recover_comm (a b v : List Nat)
    (h : recover_secret a b = Except.ok v) :
    recover_secret b a = Except.ok v := by
  cases h1 : verify_and_extract a with
  | error e =>
      rw [recover_error_left a b e h1] at h
      exact Except.noConfusion h
  | ok p1 =>
      cases h2 : verify_and_extract b with
      | error e =>
          rw [recover_error_right a b p1 e h1 h2] at h
          exact Except.noConfusion h
      | ok p2 =>
          rw [recover_eq_of_verify a b p1 p2 h1 h2] at h
          rw [recover_eq_of_verify b a p2 p1 h2 h1,
            List.zipWith_comm_of_comm _ (fun x y => Nat.xor_comm x y) p2 p1]
          exact h

set_option maxRecDepth 100000 in
/-- C10 witness: the swap theorem applied to a valid pair of shares with
payloads `[0]` and the empty payload. -/
theorem recover_comm_witness :
    recover_secret [0, 0, 0, 0] [0, 210, 2, 239, 141] = Except.ok [] :=
  recover_comm [0, 210, 2, 239, 141] [0, 0, 0, 0] [] rfl

end Xororo
